/-
Verification of the session-backed LinkedIn extraction engine
(src/linkedin.ts together with src/url.ts and the reconciliation client in
src/google.ts).  The TypeScript code is shallowly embedded below: pure helpers
become Lean functions over String / List Char, the browser and the external
reconciliation service are modelled as an explicit environment, and the
session runner withLinkedin is modelled as a function producing a result, a
trace of browser events, and the value of the persistent browser field.
-/
import Mathlib

namespace OpenSDR

/-! ## Character classes and string scanning (models of the JS regexes) -/

/-- JS regex word class \w, i.e. ASCII letters, digits and underscore. -/
def isWordChar (c : Char) : Bool :=
  c.isAlphanum || c == '_'

/-- Character class [\w-] used by the profile-slug regexes in linkedin.ts. -/
def isSlugChar (c : Char) : Bool :=
  isWordChar c || c == '-'

/-- If `pat` is a literal prefix of `s`, return the remainder of `s`,
else `none`.  Used to model literal matching inside the JS regexes. -/
def stripPref : List Char → List Char → Option (List Char)
  | [], s => some s
  | _ :: _, [] => none
  | a :: as, b :: bs => if a == b then stripPref as bs else none

/-- Does the literal `pat` occur anywhere in `s`?  Models
String.prototype.includes. -/
def subsearch (pat : List Char) : List Char → Bool
  | [] => (stripPref pat []).isSome
  | c :: rest => (stripPref pat (c :: rest)).isSome || subsearch pat rest

/-- Model of s.includes(pat). -/
def containsStr (s pat : String) : Bool :=
  subsearch pat.data s.data

/-- ASCII lowercasing of a string; models String.prototype.toLowerCase on
the ASCII inputs this code handles. -/
def lowerStr (s : String) : String :=
  (s.data.map Char.toLower).asString

/-- Model of s.toLowerCase().includes(pat.toLowerCase()), the case-insensitive
substring checks in findConnectionsAtCompany and findProfile. -/
def includesCI (s pat : String) : Bool :=
  containsStr (lowerStr s) (lowerStr pat)

/-- Model of the JS regex `lit([\w-]+)`: scan left to right for the first
position where the literal `pat` matches and is followed by at least one
[\w-] character; return that maximal [\w-] run (the captured group). -/
def matchLitPlusRun (pat : List Char) : List Char → Option (List Char)
  | [] => none
  | c :: rest =>
    match stripPref pat (c :: rest) with
    | some tail =>
      let run := tail.takeWhile isSlugChar
      if run.isEmpty then matchLitPlusRun pat rest else some run
    | none => matchLitPlusRun pat rest

/-- The literal part of the slug-filter regex /linkedin\.com\/in\/([\w-]+)/. -/
def slugPat : List Char := "linkedin.com/in/".data

/-- The literal part of the harvest regex
/https:\/\/www\.linkedin\.com\/in\/[\w-]+/. -/
def profilePat : List Char := "https://www.linkedin.com/in/".data

/-- url.match(/linkedin\.com\/in\/([\w-]+)/), returning the captured slug. -/
def slugOf (url : String) : Option (List Char) :=
  matchLitPlusRun slugPat url.data

/-- Truthiness of href.match(/https:\/\/www\.linkedin\.com\/in\/[\w-]+/),
the harvest-stage filter in extractProfilesFromLinkedin. -/
def hasProfilePattern (url : String) : Bool :=
  (matchLitPlusRun profilePat url.data).isSome

/-- The slug heuristic filter from extractProfilesFromLinkedin: keep a URL
unless its captured slug is longer than 38 characters and contains a digit;
a URL whose slug regex does not match at all is dropped. -/
def slugFilter (url : String) : Bool :=
  match slugOf url with
  | none => false
  | some slug =>
    if decide (slug.length > 38) && slug.any Char.isDigit then false else true

/-! ## URL cleaning (src/url.ts) -/

/-- The pieces of a parsed absolute URL that cleanUrlQueryParams reads. -/
structure UrlParts where
  origin : String
  pathname : String

/-- Characters allowed in a URL scheme after the leading letter. -/
def isSchemeChar (c : Char) : Bool :=
  c.isAlpha || c.isDigit || c == '+' || c == '-' || c == '.'

/-- Model of the platform URL constructor, restricted to the plain absolute
scheme://host[/path][?query][#fragment] URLs this program handles: scheme and
host are lowercased, an empty path becomes "/", and any input that does not
have the scheme://host shape is rejected (the constructor would throw). -/
def parseUrl (s : String) : Option UrlParts :=
  let cs := s.data
  let scheme := cs.takeWhile (fun c => c != ':')
  let headAlpha := match scheme with
    | [] => false
    | c :: _ => c.isAlpha
  if headAlpha && scheme.all isSchemeChar then
    match cs.drop scheme.length with
    | ':' :: '/' :: '/' :: rest =>
      let host := rest.takeWhile (fun c => c != '/' && c != '?' && c != '#')
      if host.isEmpty then none
      else
        let afterHost := rest.drop host.length
        let path := afterHost.takeWhile (fun c => c != '?' && c != '#')
        let pathname := if path.isEmpty then "/" else path.asString
        some ⟨(scheme.map Char.toLower).asString ++ "://" ++
                (host.map Char.toLower).asString, pathname⟩
    | _ => none
  else none

/-- cleanUrlQueryParams from src/url.ts: an empty string is returned as is;
otherwise parse the URL and return origin ++ pathname; if parsing fails
(the constructor throws), return the original URL. -/
def cleanUrlQueryParams (url : String) : String :=
  if url = "" then url
  else
    match parseUrl url with
    | some p => p.origin ++ p.pathname
    | none => url

/-! ## Remaining JS helpers used by linkedin.ts -/

/-- JS truthiness of a nullable string value: undefined, null and the empty
string are falsy.  Models the checks `if (x && typeof x === "string")`. -/
def truthyStr : Option String → Option String
  | none => none
  | some s => if s = "" then none else some s

/-- query.replace(/\s+/g, "_"): each maximal whitespace run becomes one
underscore.  The flag records whether the previous character was whitespace. -/
def collapseWsAux : Bool → List Char → List Char
  | _, [] => []
  | prevWs, c :: rest =>
    if c.isWhitespace then
      (if prevWs then [] else ['_']) ++ collapseWsAux true rest
    else c :: collapseWsAux false rest

/-- Model of query.replace(/\s+/g, "_") for screenshot names. -/
def replaceWs (s : String) : String :=
  (collapseWsAux false s.data).asString

/-- Upper-case hex digit of a value below 16. -/
def hexUpper (n : Nat) : Char :=
  if n < 10 then Char.ofNat (48 + n) else Char.ofNat (55 + n)

/-- UTF-8 bytes of a code point. -/
def utf8Bytes (n : Nat) : List Nat :=
  if n < 128 then [n]
  else if n < 2048 then [192 + n / 64, 128 + n % 64]
  else if n < 65536 then [224 + n / 4096, 128 + (n / 64) % 64, 128 + n % 64]
  else [240 + n / 262144, 128 + (n / 4096) % 64, 128 + (n / 64) % 64,
        128 + n % 64]

/-- Characters left unescaped by encodeURIComponent
(alphanumerics and - _ . ! ~ * ( ) and the apostrophe, code point 39). -/
def isUriUnreserved (c : Char) : Bool :=
  c.isAlphanum || c == '-' || c == '_' || c == '.' || c == '!' || c == '~' ||
    c == '*' || c.toNat == 39 || c == '(' || c == ')'

/-- Model of encodeURIComponent. -/
def encodeURIComponent (s : String) : String :=
  (s.data.foldr
    (fun c acc =>
      (if isUriUnreserved c then [c]
       else (utf8Bytes c.toNat).foldr
         (fun b acc2 => '%' :: hexUpper (b / 16) :: hexUpper (b % 16) :: acc2)
         []) ++ acc)
    []).asString

/-! ## Candidate harvesting (extractProfilesFromLinkedin, lines 272-302) -/

/-- The JS dedup idiom arr.filter((x, i, self) => self.indexOf(x) === i):
keep each element the first time it is seen.  `seen` holds the elements
already emitted. -/
def dedupSeen (seen : List String) : List String → List String
  | [] => []
  | x :: xs =>
    if seen.contains x then dedupSeen seen xs
    else x :: dedupSeen (x :: seen) xs

/-- First-seen-order deduplication by exact match. -/
def dedupFirstSeen (l : List String) : List String :=
  dedupSeen [] l

/-- The harvest pipeline applied to the hrefs of the profile anchors found on
the page, in DOM order: regex filter, exact-match dedup (inside
page.evaluate), then query-param stripping and the slug filter (outside). -/
def harvestCandidates (hrefs : List String) : List String :=
  ((dedupFirstSeen (hrefs.filter hasProfilePattern)).map
      cleanUrlQueryParams).filter slugFilter

/-! ## Data model -/

/-- The Profile record (ProfileSchema in linkedin.ts). -/
structure Profile where
  name : String
  role : String
  company : String
  profileUrl : String
  deriving DecidableEq, Repr

/-- Connection degree argument of findConnectionsAtCompany. -/
inductive Degree where
  | first
  | second
  deriving DecidableEq, Repr

/-- Observable browser events of one traversal call. -/
inductive Event where
  | launch (headless : Bool)
  | navigate (url : String)
  | reconcile
  | close
  deriving DecidableEq, Repr

/-- The options argument of withLinkedin. -/
structure WLOptions where
  headless : Bool
  useExistingBrowser : Bool
  deriving DecidableEq, Repr

/-- The default options of withLinkedin. -/
def defaultWLOptions : WLOptions := ⟨true, false⟩

/-- What one withLinkedin call produces: a result (error means an exception
propagated to the caller, ok none means the undefined return of the
missing-cookie-store path), the browser events in order, and the value of the
persistent this.browser field after the call. -/
structure WLOutcome (T : Type) where
  result : Except String (Option T)
  events : List Event
  browserAfter : Option Nat

/-- The content of a loaded page, as read by the page.evaluate callbacks:
hrefs of the anchors whose trimmed text is "View full profile" (non-null
hrefs, DOM order), hrefs of the anchors matched by the profile-link selector
(DOM order), all anchor hrefs (for the facetNetwork search), and the number
of buttons whose aria-label contains "Message". -/
structure PageModel where
  viewProfileAnchors : List String
  profileAnchorHrefs : List String
  anchorHrefs : List String
  messageButtonCount : Nat

/-- The environment of a traversal call: whether the cookie store file exists
at cookiesPath, the page content behind every URL, and the external visual
reconciliation service (GoogleAI.generateStructuredData) as an arbitrary
function from the additional instructions and the candidate URL list to the
Profile records it returns. -/
structure Env where
  cookieStore : Bool
  pages : String → PageModel
  reconcile : String → List String → List Profile

/-- Result and event trace of one top-level operation. -/
structure Traced (α : Type) where
  result : Except String α
  events : List Event

/-- Return value of findMutualConnections. -/
structure MutualResult where
  mutuals : List Profile
  person : Profile
  deriving DecidableEq, Repr

/-! ## Browser session runner (withLinkedin, lines 320-372) -/

/-- Model of withLinkedin.  A browser is reused only when useExistingBrowser
is set and this.browser is occupied, otherwise one is launched.  If the
cookie store file is missing the browser is closed and undefined is returned
without navigating; otherwise cookies are set, the page navigates to url and
the callback runs (fnResult and fnEvents are its outcome and the events it
performs).  The finally block closes the browser and clears this.browser on
every exit path, so a second close event follows the explicit close of the
missing-cookie path. -/
def withLinkedinM {T : Type} (cookieStore : Bool) (prevBrowser : Option Nat)
    (opts : WLOptions) (url : String) (fnResult : Except String T)
    (fnEvents : List Event) : WLOutcome T :=
  let reused := opts.useExistingBrowser && prevBrowser.isSome
  let launchEvents := if reused then ([] : List Event)
    else [Event.launch opts.headless]
  if cookieStore then
    match fnResult with
    | Except.ok t =>
      ⟨Except.ok (some t),
        (launchEvents ++ Event.navigate url :: fnEvents) ++ [Event.close],
        none⟩
    | Except.error e =>
      ⟨Except.error e,
        (launchEvents ++ Event.navigate url :: fnEvents) ++ [Event.close],
        none⟩
  else
    ⟨Except.ok none, (launchEvents ++ [Event.close]) ++ [Event.close], none⟩

/-! ## Extraction pipeline (extractProfilesFromLinkedin, lines 249-318) -/

/-- Model of extractProfilesFromLinkedin.  Its callback removes the summary
elements, takes the screenshot, harvests and filters the candidate URLs and
hands them with the screenshot to the reconciliation service; `name` only
names the screenshot file.  An undefined withLinkedin result becomes the
empty list (the trailing or-else in the source). -/
def extractProfilesT (env : Env) (url name addl : String) :
    Traced (List Profile) :=
  let candidates := harvestCandidates (env.pages url).profileAnchorHrefs
  let o := withLinkedinM env.cookieStore none defaultWLOptions url
    (Except.ok (env.reconcile addl candidates)) [Event.reconcile]
  match o.result with
  | Except.ok (some ps) => ⟨Except.ok ps, o.events⟩
  | Except.ok none => ⟨Except.ok [], o.events⟩
  | Except.error e => ⟨Except.error e, o.events⟩

/-! ## Traversal operations (lines 105-247) -/

/-- Network query parameter: "F" for first-degree, "S" for second. -/
def networkParam (d : Degree) : String :=
  if d = Degree.first then "F" else "S"

/-- The search URL built by findConnectionsAtCompany. -/
def connectionsSearchUrl (companyName : String) (degree : Degree) : String :=
  "https://www.linkedin.com/search/results/people/?keywords=" ++
    encodeURIComponent companyName ++ "&network=[\"" ++
    networkParam degree ++ "\"]"

/-- The additional instructions findConnectionsAtCompany sends along. -/
def connectionsInstruction (companyName : String) : String :=
  "VERY IMPORTANT: Only include profiles of people that work at the company \x27" ++
    companyName ++
    "\x27 and be sure this is correct, ignore other profiles."

/-- Model of findConnectionsAtCompany (lines 105-121): run the pipeline
against the network-filtered search URL, then keep the profiles whose
company contains the company name case-insensitively. -/
def findConnectionsAtCompanyT (env : Env) (companyName : String)
    (degree : Degree) : Traced (List Profile) :=
  let searchUrl := connectionsSearchUrl companyName degree
  let ex := extractProfilesT env searchUrl
    (replaceWs companyName ++ "_connections")
    (connectionsInstruction companyName)
  match ex.result with
  | Except.error e => ⟨Except.error e, ex.events⟩
  | Except.ok profiles =>
    ⟨Except.ok (profiles.filter
        (fun profile => includesCI profile.company companyName)),
      ex.events⟩

/-- The query string of findProfile. -/
def personQuery (personName : String) (companyName : Option String) : String :=
  match companyName with
  | some c => c ++ " " ++ personName
  | none => personName

/-- The search URL built by findProfile. -/
def personSearchUrl (personName : String) (companyName : Option String) :
    String :=
  "https://www.linkedin.com/search/results/people/?keywords=" ++
    encodeURIComponent (personQuery personName companyName)

/-- The callback of the direct-link shortcut in findProfile: the hrefs of the
anchors labelled "View full profile"; if exactly one exists return it, else
null. -/
def directShortcut (pm : PageModel) : Option String :=
  if pm.viewProfileAnchors.length = 1 then pm.viewProfileAnchors.head?
  else none

/-- Model of findProfile (lines 128-165).  First the direct-link shortcut
(one withLinkedin call); the shortcut result is used only when it is a truthy
string.  Otherwise the pipeline runs and the first profile whose name
contains the person name case-insensitively is returned; if none matches the
no-profile-found error is thrown. -/
def findProfileT (env : Env) (personName : String)
    (companyName : Option String) : Traced Profile :=
  let searchUrl := personSearchUrl personName companyName
  let o1 := withLinkedinM env.cookieStore none defaultWLOptions searchUrl
    (Except.ok (directShortcut (env.pages searchUrl))) []
  match o1.result with
  | Except.error e => ⟨Except.error e, o1.events⟩
  | Except.ok r1 =>
    match truthyStr r1.join with
    | some u => ⟨Except.ok ⟨personName, "", "", u⟩, o1.events⟩
    | none =>
      let ex := extractProfilesT env searchUrl
        (replaceWs (personQuery personName companyName) ++ "_person") ""
      match ex.result with
      | Except.error e => ⟨Except.error e, o1.events ++ ex.events⟩
      | Except.ok profiles =>
        match (profiles.filter
            (fun profile => includesCI profile.name personName)).head? with
        | some p => ⟨Except.ok p, o1.events ++ ex.events⟩
        | none =>
          ⟨Except.error ("No profile found for " ++ personName),
            o1.events ++ ex.events⟩

/-- The callback of findMutualConnections on the profile page: among the
anchors matched by the facetNetwork selector, the first href containing both
the first-degree facet marker and the connection-of marker, else null. -/
def facetMutualLink (pm : PageModel) : Option String :=
  (pm.anchorHrefs.filter (fun h => containsStr h "facetNetwork")).find?
    (fun h =>
      containsStr h "facetNetwork=%22F%22" &&
        containsStr h "facetConnectionOf=")

/-- Model of findMutualConnections (lines 214-247): resolve the person via
findProfile, visit the profile page and look for the mutual-connections
link; if a truthy link is found run the pipeline against it, otherwise
return an empty mutuals list with the resolved person. -/
def findMutualConnectionsT (env : Env) (personName : String)
    (companyName : Option String) : Traced MutualResult :=
  let fp := findProfileT env personName companyName
  match fp.result with
  | Except.error e => ⟨Except.error e, fp.events⟩
  | Except.ok person =>
    let o2 := withLinkedinM env.cookieStore none defaultWLOptions
      person.profileUrl
      (Except.ok (facetMutualLink (env.pages person.profileUrl))) []
    match o2.result with
    | Except.error e => ⟨Except.error e, fp.events ++ o2.events⟩
    | Except.ok r2 =>
      match truthyStr r2.join with
      | some u =>
        let ex := extractProfilesT env u
          (replaceWs personName ++ "_mutual_connections") ""
        match ex.result with
        | Except.error e => ⟨Except.error e, fp.events ++ o2.events ++ ex.events⟩
        | Except.ok mutuals =>
          ⟨Except.ok ⟨mutuals, person⟩, fp.events ++ o2.events ++ ex.events⟩
      | none => ⟨Except.ok ⟨[], person⟩, fp.events ++ o2.events⟩

/-- Model of draftMessage (lines 172-207), run in headed mode with
useExistingBrowser set.  The callback waits up to five seconds for a
message button; if none appears it logs and returns false, otherwise it
clicks the second button when two are present (else the first), types the
message and returns true.  The undefined withLinkedin result of the
missing-cookie path becomes false through the trailing or-else. -/
def draftMessageT (env : Env) (prevBrowser : Option Nat)
    (profileUrl message : String) : Traced Bool :=
  let fnResult : Except String Bool :=
    Except.ok (if (env.pages profileUrl).messageButtonCount = 0 then false
      else true)
  let o := withLinkedinM env.cookieStore prevBrowser ⟨false, true⟩ profileUrl
    fnResult []
  match o.result with
  | Except.error e => ⟨Except.error e, o.events⟩
  | Except.ok r => ⟨Except.ok (r.getD false), o.events⟩

/-! ## Abbreviations used by the claim statements -/

/-- The profiles the reconciliation service returns for the
findConnectionsAtCompany pipeline of a given company and degree. -/
def reconciledConnections (env : Env) (companyName : String)
    (degree : Degree) : List Profile :=
  env.reconcile (connectionsInstruction companyName)
    (harvestCandidates
      ((env.pages (connectionsSearchUrl companyName degree)).profileAnchorHrefs))

/-- The profiles the reconciliation service returns for the findProfile
pipeline of a given person and company. -/
def reconciledPeople (env : Env) (personName : String)
    (companyName : Option String) : List Profile :=
  env.reconcile ""
    (harvestCandidates
      ((env.pages (personSearchUrl personName companyName)).profileAnchorHrefs))

/-- No navigate event occurs in the trace. -/
def noNavigation (evs : List Event) : Prop :=
  ∀ u, Event.navigate u ∉ evs

/-! ## Concrete environments used by counterexamples and witnesses -/

/-- An empty page. -/
def pageEmpty : PageModel := ⟨[], [], [], 0⟩

/-- No cookie store file; pages and the service are irrelevant. -/
def envNoCookies : Env := ⟨false, fun _ => pageEmpty, fun _ _ => []⟩

/-- A profile whose URL is not a harvested candidate. -/
def evilProfile : Profile := ⟨"Eve", "", "", "https://evil.example/x"⟩

/-- A session whose reconciliation service invents a URL that is not among
the candidates it was given. -/
def envInvent : Env :=
  ⟨true, fun _ => ⟨[], ["https://www.linkedin.com/in/alice"], [], 0⟩,
    fun _ _ => [evilProfile]⟩

/-- A session whose reconciliation service echoes back exactly the candidate
URLs it was given. -/
def envEcho : Env :=
  ⟨true, fun _ => ⟨[], ["https://www.linkedin.com/in/alice"], [], 0⟩,
    fun _ cands => cands.map (fun u2 => ⟨"", "", "", u2⟩)⟩

/-- A reconciled profile at Acme Corp. -/
def acmeProfile : Profile :=
  ⟨"Alice", "CEO", "Acme Corp", "https://www.linkedin.com/in/alice"⟩

/-- A reconciled profile at a different company. -/
def otherProfile : Profile :=
  ⟨"Bob", "CTO", "Other Inc", "https://www.linkedin.com/in/bob"⟩

/-- A session whose reconciliation service returns one Acme Corp profile and
one Other Inc profile. -/
def envAcme : Env := ⟨true, fun _ => pageEmpty, fun _ _ => [acmeProfile, otherProfile]⟩

/-- The reconciled profile of Jane Doe used by the pipeline environments. -/
def janeProfile : Profile :=
  ⟨"Jane Doe", "CEO", "Example Co", "https://www.linkedin.com/in/jane2"⟩

/-- A search page with exactly one view-full-profile anchor whose href is the
empty string. -/
def envEmptyHref : Env :=
  ⟨true, fun _ => ⟨[""], ["https://www.linkedin.com/in/jane2"], [], 0⟩,
    fun _ _ => [janeProfile]⟩

/-- A search page with exactly one view-full-profile anchor carrying a real
href; every page has no other links and no message buttons. -/
def envShortcut : Env :=
  ⟨true, fun _ => ⟨["https://www.linkedin.com/in/jane"], [], [], 0⟩,
    fun _ _ => []⟩

/-- The profile the direct-link shortcut synthesizes in envShortcut. -/
def janeShort : Profile :=
  ⟨"Jane Doe", "", "", "https://www.linkedin.com/in/jane"⟩

/-- A search page with no view-full-profile anchor, so findProfile uses the
harvest-and-reconcile pipeline. -/
def envPipeline : Env :=
  ⟨true, fun _ => ⟨[], ["https://www.linkedin.com/in/jane2"], [], 0⟩,
    fun _ _ => [janeProfile]⟩

/-- A session with a cookie store whose pages show no message button. -/
def envNoButton : Env := ⟨true, fun _ => pageEmpty, fun _ _ => []⟩

/-! ## Helper lemmas -/

/-- The slug regex applied to a well-formed profile URL captures exactly the
slug appended after the /in/ segment. -/
theorem matchSlug_prefix (slug : List Char) (h1 : slug ≠ [])
    (h2 : ∀ a ∈ slug, isSlugChar a = true) :
    matchLitPlusRun slugPat ("https://www.linkedin.com/in/".data ++ slug) = some slug := by
  have htw : slug.takeWhile isSlugChar = slug :=
    List.takeWhile_eq_self_iff.mpr (by intro a ha; simp [h2 a ha])
  have hne : slug.isEmpty = false := by
    cases slug with
    | nil => exact absurd rfl h1
    | cons a t => rfl
  have key : matchLitPlusRun slugPat ("https://www.linkedin.com/in/".data ++ slug)
      = (if (slug.takeWhile isSlugChar).isEmpty
          then matchLitPlusRun slugPat ("inkedin.com/in/".data ++ slug)
          else some (slug.takeWhile isSlugChar)) := rfl
  rw [key, htw, hne]
  simp

/-- The last element of a list ending in a singleton. -/
theorem getLast?_append_singleton {α : Type} (l : List α) (a : α) :
    (l ++ [a]).getLast? = some a := by
  simp [List.getLast?_append]

/-- The dedup accumulator keeps a subsequence of its input. -/
theorem dedupSeen_sublist (l : List String) :
    ∀ seen, (dedupSeen seen l).Sublist l := by
  induction l with
  | nil => intro seen; simp [dedupSeen]
  | cons x xs ih =>
    intro seen
    by_cases h : seen.contains x
    · simp only [dedupSeen, h, if_true]
      exact (ih seen).cons x
    · simp only [dedupSeen, h, if_false]
      exact (ih (x :: seen)).cons₂ x

/-- The dedup accumulator emits no duplicates and nothing already seen. -/
theorem dedupSeen_nodup (l : List String) :
    ∀ seen, (dedupSeen seen l).Nodup ∧ ∀ y ∈ dedupSeen seen l, y ∉ seen := by
  induction l with
  | nil => intro seen; simp [dedupSeen]
  | cons x xs ih =>
    intro seen
    by_cases h : seen.contains x
    · simp only [dedupSeen, h, if_true]
      exact ih seen
    · simp only [dedupSeen, h, if_false]
      have hx : x ∉ seen := by simpa using h
      refine ⟨List.Nodup.cons ?_ (ih (x :: seen)).1, ?_⟩
      · intro hmem
        exact ((ih (x :: seen)).2 x hmem) (List.mem_cons_self x seen)
      · intro y hy
        rcases List.mem_cons.mp hy with rfl | hy2
        · exact hx
        · intro hseen
          exact ((ih (x :: seen)).2 y hy2) (List.mem_cons_of_mem x hseen)

/-- First-seen deduplication preserves the input order. -/
theorem dedupFirstSeen_sublist (l : List String) :
    (dedupFirstSeen l).Sublist l := dedupSeen_sublist l []

/-- First-seen deduplication emits no duplicates. -/
theorem dedupFirstSeen_nodup (l : List String) :
    (dedupFirstSeen l).Nodup := (dedupSeen_nodup l []).1

/-- Unfolding step of the dedup accumulator on an already-seen head. -/
theorem dedupSeen_cons_of_mem (s : List String) (x : String) (xs : List String)
    (h : s.contains x = true) : dedupSeen s (x :: xs) = dedupSeen s xs := by
  show (if s.contains x = true then dedupSeen s xs
        else x :: dedupSeen (x :: s) xs) = dedupSeen s xs
  rw [if_pos h]

/-- Unfolding step of the dedup accumulator on a fresh head. -/
theorem dedupSeen_cons_of_not_mem (s : List String) (x : String)
    (xs : List String) (h : s.contains x = false) :
    dedupSeen s (x :: xs) = x :: dedupSeen (x :: s) xs := by
  show (if s.contains x = true then dedupSeen s xs
        else x :: dedupSeen (x :: s) xs) = x :: dedupSeen (x :: s) xs
  rw [if_neg (by rw [h]; simp)]

/-- The dedup accumulator depends on the seen list only through membership. -/
theorem dedupSeen_congr (l : List String) :
    ∀ s₁ s₂ : List String, (∀ a, s₁.contains a = s₂.contains a) →
      dedupSeen s₁ l = dedupSeen s₂ l := by
  induction l with
  | nil => intro s₁ s₂ h; rfl
  | cons x xs ih =>
    intro s₁ s₂ h
    cases hx : s₂.contains x with
    | true =>
      have hx1 : s₁.contains x = true := by rw [h x]; exact hx
      rw [dedupSeen_cons_of_mem s₁ x xs hx1, dedupSeen_cons_of_mem s₂ x xs hx,
        ih s₁ s₂ h]
    | false =>
      have hx1 : s₁.contains x = false := by rw [h x]; exact hx
      rw [dedupSeen_cons_of_not_mem s₁ x xs hx1,
        dedupSeen_cons_of_not_mem s₂ x xs hx]
      have h2 : ∀ a, (x :: s₁).contains a = (x :: s₂).contains a := by
        intro a
        simp only [List.contains_cons, h a]
      rw [ih (x :: s₁) (x :: s₂) h2]

/-- Marking an element as seen is the same as deleting all of its occurrences
from the input up front. -/
theorem dedupSeen_cons_seen (l : List String) :
    ∀ (s : List String) (x : String),
      dedupSeen (x :: s) l = dedupSeen s (l.filter (fun y => !(y == x))) := by
  induction l with
  | nil => intro s x; rfl
  | cons y ys ih =>
    intro s x
    cases hxy : y == x with
    | true =>
      have hxy2 : y = x := by simpa using hxy
      subst hxy2
      have h1 : (y :: s).contains y = true := by simp [List.contains_cons]
      have h2 : ((y :: ys).filter (fun z => !(z == y)))
          = ys.filter (fun z => !(z == y)) := by
        simp [List.filter_cons]
      rw [h2, dedupSeen_cons_of_mem (y :: s) y ys h1, ih s y]
    | false =>
      have h2 : ((y :: ys).filter (fun z => !(z == x)))
          = y :: ys.filter (fun z => !(z == x)) := by
        simp [List.filter_cons, hxy]
      rw [h2]
      cases hs : s.contains y with
      | true =>
        have hc : (x :: s).contains y = true := by
          simp only [List.contains_cons, hxy, hs, Bool.false_or]
        rw [dedupSeen_cons_of_mem (x :: s) y ys hc,
          dedupSeen_cons_of_mem s y (ys.filter (fun z => !(z == x))) hs,
          ih s x]
      | false =>
        have hc : (x :: s).contains y = false := by
          simp only [List.contains_cons, hxy, hs, Bool.or_false]
        rw [dedupSeen_cons_of_not_mem (x :: s) y ys hc,
          dedupSeen_cons_of_not_mem s y (ys.filter (fun z => !(z == x))) hs]
        have hswap : dedupSeen (y :: x :: s) ys
            = dedupSeen (x :: y :: s) ys := by
          apply dedupSeen_congr
          intro a
          simp only [List.contains_cons, Bool.or_left_comm]
        rw [hswap, ih (y :: s) x]

/-- Membership in the dedup accumulator output: exactly the input elements
that are not already marked as seen. -/
theorem dedupSeen_mem (l : List String) :
    ∀ (s : List String) (y : String),
      y ∈ dedupSeen s l ↔ (y ∈ l ∧ y ∉ s) := by
  induction l with
  | nil => intro s y; simp [dedupSeen]
  | cons x xs ih =>
    intro s y
    cases hx : s.contains x with
    | true =>
      have hmem : x ∈ s := by simpa using hx
      rw [dedupSeen_cons_of_mem s x xs hx, ih s y]
      constructor
      · exact fun h2 => ⟨List.mem_cons_of_mem x h2.1, h2.2⟩
      · rintro ⟨h2, h3⟩
        rcases List.mem_cons.mp h2 with rfl | h4
        · exact absurd hmem h3
        · exact ⟨h4, h3⟩
    | false =>
      have hmem : x ∉ s := by simpa using hx
      rw [dedupSeen_cons_of_not_mem s x xs hx, List.mem_cons, ih (x :: s) y]
      constructor
      · rintro (rfl | ⟨h2, h3⟩)
        · exact ⟨List.mem_cons_self y xs, hmem⟩
        · refine ⟨List.mem_cons_of_mem x h2,
            fun h4 => h3 (List.mem_cons_of_mem x h4)⟩
      · rintro ⟨h2, h3⟩
        rcases List.mem_cons.mp h2 with rfl | h4
        · exact Or.inl rfl
        · by_cases hyx : y = x
          · exact Or.inl hyx
          · refine Or.inr ⟨h4, ?_⟩
            intro h5
            rcases List.mem_cons.mp h5 with h6 | h6
            · exact hyx h6
            · exact h3 h6

/-- First-seen deduplication drops nothing except repeated occurrences: its
output has exactly the members of its input. -/
theorem dedupFirstSeen_mem (l : List String) (y : String) :
    y ∈ dedupFirstSeen l ↔ y ∈ l := by
  rw [dedupFirstSeen, dedupSeen_mem]
  simp

/-- The keep-first recursion: deduplication keeps the head (its first
occurrence) and continues on the tail with every copy of the head removed.
Together with the nil case this equation characterizes first-seen
deduplication uniquely. -/
theorem dedupFirstSeen_cons (x : String) (xs : List String) :
    dedupFirstSeen (x :: xs)
      = x :: dedupFirstSeen (xs.filter (fun y => !(y == x))) := by
  rw [dedupFirstSeen, dedupSeen_cons_of_not_mem [] x xs rfl, dedupFirstSeen,
    dedupSeen_cons_seen]

/-! ## Claim theorems -/

/-- Claim C1 (amended): when the cookie store file is absent, every traversal
operation performs no page navigation; but instead of failing with a
SessionMissing error, findConnectionsAtCompany resolves to the empty list,
findProfile and findMutualConnections throw the no-profile-found error, and
draftMessage resolves to false. -/
theorem traversals_missing_cookieStore (env : Env)
    (companyName personName profileUrl message : String) (degree : Degree)
    (companyArg : Option String) (hcs : env.cookieStore = false) :
    noNavigation (findConnectionsAtCompanyT env companyName degree).events ∧
    (findConnectionsAtCompanyT env companyName degree).result
      = Except.ok [] ∧
    noNavigation (findProfileT env personName companyArg).events ∧
    (findProfileT env personName companyArg).result
      = Except.error ("No profile found for " ++ personName) ∧
    noNavigation (findMutualConnectionsT env personName companyArg).events ∧
    (findMutualConnectionsT env personName companyArg).result
      = Except.error ("No profile found for " ++ personName) ∧
    noNavigation (draftMessageT env none profileUrl message).events ∧
    (draftMessageT env none profileUrl message).result = Except.ok false := by
  have hfc : findConnectionsAtCompanyT env companyName degree
      = ⟨Except.ok [], [Event.launch true, Event.close, Event.close]⟩ := by
    simp [findConnectionsAtCompanyT, extractProfilesT, withLinkedinM, hcs,
      defaultWLOptions]
  have hfp : findProfileT env personName companyArg
      = ⟨Except.error ("No profile found for " ++ personName),
          [Event.launch true, Event.close, Event.close,
           Event.launch true, Event.close, Event.close]⟩ := by
    simp [findProfileT, extractProfilesT, withLinkedinM, hcs,
      defaultWLOptions, truthyStr]
  have hmc : findMutualConnectionsT env personName companyArg
      = ⟨Except.error ("No profile found for " ++ personName),
          [Event.launch true, Event.close, Event.close,
           Event.launch true, Event.close, Event.close]⟩ := by
    simp [findMutualConnectionsT, hfp]
  have hdm : draftMessageT env none profileUrl message
      = ⟨Except.ok false, [Event.launch false, Event.close, Event.close]⟩ := by
    simp [draftMessageT, withLinkedinM, hcs]
  refine ⟨?_, by rw [hfc], ?_, by rw [hfp], ?_, by rw [hmc], ?_, by rw [hdm]⟩
  · rw [hfc]; intro u; simp
  · rw [hfp]; intro u; simp
  · rw [hmc]; intro u; simp
  · rw [hdm]; intro u; simp

/-- Counterexample to claim C1 as stated: with no cookie store present,
findConnectionsAtCompany completes successfully with the empty list and
draftMessage completes successfully with false, so neither call fails with a
SessionMissing error. -/
theorem missing_cookieStore_no_error_cex :
    envNoCookies.cookieStore = false ∧
    (findConnectionsAtCompanyT envNoCookies "Acme" Degree.first).result
      = Except.ok [] ∧
    (draftMessageT envNoCookies none "https://www.linkedin.com/in/jane"
        "hello").result = Except.ok false :=
  ⟨rfl, rfl, rfl⟩

/-- Witness for the amended claim C1 at a concrete environment. -/
theorem traversals_missing_cookieStore_witness :
    envNoCookies.cookieStore = false ∧
    (noNavigation (findConnectionsAtCompanyT envNoCookies "Acme"
        Degree.first).events ∧
     (findConnectionsAtCompanyT envNoCookies "Acme" Degree.first).result
       = Except.ok [] ∧
     noNavigation (findProfileT envNoCookies "Jane Doe" none).events ∧
     (findProfileT envNoCookies "Jane Doe" none).result
       = Except.error ("No profile found for " ++ "Jane Doe") ∧
     noNavigation (findMutualConnectionsT envNoCookies "Jane Doe" none).events ∧
     (findMutualConnectionsT envNoCookies "Jane Doe" none).result
       = Except.error ("No profile found for " ++ "Jane Doe") ∧
     noNavigation (draftMessageT envNoCookies none
        "https://www.linkedin.com/in/jane" "hello").events ∧
     (draftMessageT envNoCookies none "https://www.linkedin.com/in/jane"
        "hello").result = Except.ok false) :=
  ⟨rfl, traversals_missing_cookieStore envNoCookies "Acme" "Jane Doe"
    "https://www.linkedin.com/in/jane" "hello" Degree.first none rfl⟩

/-- Claim C2 (amended): the harvested candidate sequence is the
canonicalized, slug-filtered image of the first-seen deduplication of the
regex-filtered raw hrefs, where first-seen deduplication is characterized
exactly: it is a subsequence of its input (DOM order preserved), has no
duplicate raw hrefs, keeps every distinct input element (drops only repeated
occurrences), and obeys the keep-first recursion equations, which pin the
kept occurrence of each element to its first position.  Because this dedup
runs before cleanUrlQueryParams, entries with equal canonical form may
remain. -/
theorem harvest_dedup_first_seen (l : List String) :
    harvestCandidates l
      = ((dedupFirstSeen (l.filter hasProfilePattern)).map
          cleanUrlQueryParams).filter slugFilter ∧
    (dedupFirstSeen l).Sublist l ∧
    (dedupFirstSeen l).Nodup ∧
    (∀ y, y ∈ dedupFirstSeen l ↔ y ∈ l) ∧
    dedupFirstSeen ([] : List String) = [] ∧
    (∀ (x : String) (xs : List String),
      dedupFirstSeen (x :: xs)
        = x :: dedupFirstSeen (xs.filter (fun y => !(y == x)))) :=
  ⟨rfl, dedupFirstSeen_sublist l, dedupFirstSeen_nodup l,
    dedupFirstSeen_mem l, rfl, dedupFirstSeen_cons⟩

/-- Counterexample to claim C2 as stated: two raw hrefs that differ only in
their query parameters survive deduplication and canonicalize to the same
URL, so the final candidate list contains two equal entries. -/
theorem harvest_canonical_duplicate_cex :
    harvestCandidates ["https://www.linkedin.com/in/foo?x=1",
        "https://www.linkedin.com/in/foo?x=2"]
      = ["https://www.linkedin.com/in/foo", "https://www.linkedin.com/in/foo"] ∧
    ¬ (harvestCandidates ["https://www.linkedin.com/in/foo?x=1",
        "https://www.linkedin.com/in/foo?x=2"]).Nodup :=
  ⟨by decide, by decide⟩

/-- Claim C3 (amended): the pipeline forwards the reconciliation response
unfiltered, so the no-invented-URL property holds exactly when the service
itself only returns URLs drawn from the candidate list: under that
hypothesis every returned profileUrl is a member of the candidate list. -/
theorem extract_within_candidates (env : Env) (url name addl : String)
    (hserv : ∀ q ∈ env.reconcile addl
        (harvestCandidates (env.pages url).profileAnchorHrefs),
      q.profileUrl ∈ harvestCandidates (env.pages url).profileAnchorHrefs)
    (ps : List Profile)
    (hok : (extractProfilesT env url name addl).result = Except.ok ps) :
    ∀ q ∈ ps, q.profileUrl ∈
      harvestCandidates (env.pages url).profileAnchorHrefs := by
  cases hcs : env.cookieStore
  · simp [extractProfilesT, withLinkedinM, hcs] at hok
    subst hok
    simp
  · simp [extractProfilesT, withLinkedinM, hcs] at hok
    intro q hq
    apply hserv
    rw [hok]
    exact hq

/-- Counterexample to claim C3 as stated: a reconciliation service that
returns a profile whose URL is not among the candidates it was given has its
response passed through to the caller unchanged, so the pipeline does invent
URLs when the external service does. -/
theorem extract_invented_url_cex :
    (extractProfilesT envInvent
        "https://www.linkedin.com/search/results/people/?keywords=x"
        "n" "").result = Except.ok [evilProfile] ∧
    evilProfile.profileUrl ∉ harvestCandidates
      ((envInvent.pages
        "https://www.linkedin.com/search/results/people/?keywords=x").profileAnchorHrefs) :=
  ⟨rfl, by decide⟩

/-- Witness for the amended claim C3 with a service that echoes its
candidate list. -/
theorem extract_within_candidates_witness :
    (∀ q ∈ envEcho.reconcile "" (harvestCandidates
        (envEcho.pages
          "https://www.linkedin.com/search/results/people/?keywords=x").profileAnchorHrefs),
      q.profileUrl ∈ harvestCandidates
        (envEcho.pages
          "https://www.linkedin.com/search/results/people/?keywords=x").profileAnchorHrefs) ∧
    ∀ q ∈ [(⟨"", "", "", "https://www.linkedin.com/in/alice"⟩ : Profile)],
      q.profileUrl ∈ harvestCandidates
        (envEcho.pages
          "https://www.linkedin.com/search/results/people/?keywords=x").profileAnchorHrefs :=
  ⟨by decide, extract_within_candidates envEcho
    "https://www.linkedin.com/search/results/people/?keywords=x" "n" ""
    (by decide) [⟨"", "", "", "https://www.linkedin.com/in/alice"⟩] rfl⟩

/-- Claim C4: the slug filter drops a harvested candidate URL if and only if
its profile-path segment (the part after /in/) is longer than 38 characters
and contains at least one digit. -/
theorem slugFilter_drop_iff (slug : String) (h1 : slug ≠ "")
    (h2 : ∀ c ∈ slug.data, isSlugChar c = true) :
    (slugFilter ("https://www.linkedin.com/in/" ++ slug) = false) ↔
      (38 < slug.length ∧ slug.data.any Char.isDigit = true) := by
  have h1' : slug.data ≠ [] := by
    intro h
    apply h1
    cases slug
    simp_all
  have key := matchSlug_prefix slug.data h1' h2
  have hdata : ("https://www.linkedin.com/in/" ++ slug).data
      = "https://www.linkedin.com/in/".data ++ slug.data := String.data_append _ _
  have hlen : slug.length = slug.data.length := rfl
  have hred : slugFilter ("https://www.linkedin.com/in/" ++ slug)
      = (if (decide (slug.data.length > 38) && slug.data.any Char.isDigit) = true
          then false else true) := by
    unfold slugFilter slugOf
    rw [hdata, key]
  rw [hred]
  by_cases hb : (decide (slug.data.length > 38) && slug.data.any Char.isDigit) = true
  · rw [if_pos hb]
    simp only [Bool.and_eq_true, decide_eq_true_eq] at hb
    exact iff_of_true rfl ⟨by rw [hlen]; exact hb.1, hb.2⟩
  · rw [if_neg hb]
    simp only [Bool.and_eq_true, decide_eq_true_eq, not_and_or] at hb
    refine iff_of_false (by simp) ?_
    intro h
    rcases hb with hc | hc
    · exact hc (by rw [hlen] at h; exact h.1)
    · exact hc h.2

/-- Witness for claim C4: a 42-character digit-free slug is kept. -/
theorem slugFilter_drop_iff_witness :
    ("abcdefghijklmnopqrstuvwxyzabcdefghijklmnop" ≠ "") ∧
    (∀ c ∈ "abcdefghijklmnopqrstuvwxyzabcdefghijklmnop".data,
      isSlugChar c = true) ∧
    slugFilter ("https://www.linkedin.com/in/" ++
      "abcdefghijklmnopqrstuvwxyzabcdefghijklmnop") = true := by
  refine ⟨by decide, by decide, ?_⟩
  have h := slugFilter_drop_iff "abcdefghijklmnopqrstuvwxyzabcdefghijklmnop"
    (by decide) (by decide)
  cases hb : slugFilter ("https://www.linkedin.com/in/" ++
      "abcdefghijklmnopqrstuvwxyzabcdefghijklmnop")
  · exact absurd (h.mp hb) (by decide)
  · rfl

/-- Claim C5: for every company name, degree, and reconciliation response,
findConnectionsAtCompany returns exactly those reconciled records whose
company field contains the company name as a case-insensitive substring. -/
theorem findConnectionsAtCompany_filters (env : Env) (companyName : String)
    (degree : Degree) (hcs : env.cookieStore = true) :
    (findConnectionsAtCompanyT env companyName degree).result
      = Except.ok ((reconciledConnections env companyName degree).filter
          (fun profile => includesCI profile.company companyName)) ∧
    ∀ p, p ∈ (reconciledConnections env companyName degree).filter
          (fun profile => includesCI profile.company companyName) ↔
        (p ∈ reconciledConnections env companyName degree ∧
          includesCI p.company companyName = true) := by
  constructor
  · simp [findConnectionsAtCompanyT, extractProfilesT, withLinkedinM, hcs,
      reconciledConnections]
  · intro p
    simp [List.mem_filter]

/-- Witness for claim C5: against a response holding an Acme Corp profile
and an Other Inc profile, the query for Acme returns exactly the first. -/
theorem findConnectionsAtCompany_filters_witness :
    envAcme.cookieStore = true ∧
    ((findConnectionsAtCompanyT envAcme "Acme" Degree.first).result
      = Except.ok ((reconciledConnections envAcme "Acme" Degree.first).filter
          (fun profile => includesCI profile.company "Acme")) ∧
    ∀ p, p ∈ (reconciledConnections envAcme "Acme" Degree.first).filter
          (fun profile => includesCI profile.company "Acme") ↔
        (p ∈ reconciledConnections envAcme "Acme" Degree.first ∧
          includesCI p.company "Acme" = true)) ∧
    (findConnectionsAtCompanyT envAcme "Acme" Degree.first).result
      = Except.ok [acmeProfile] :=
  ⟨rfl, findConnectionsAtCompany_filters envAcme "Acme" Degree.first rfl, rfl⟩

/-- Claim C6 (amended): with a cookie store present, when the search page
yields exactly one view-full-profile anchor and its href is non-empty,
findProfile returns a Profile with empty role and company and that href as
profileUrl, without invoking the visual reconciliation service. -/
theorem findProfile_direct_shortcut (env : Env) (personName : String)
    (companyName : Option String) (u : String) (hcs : env.cookieStore = true)
    (hone : (env.pages (personSearchUrl personName
        companyName)).viewProfileAnchors = [u])
    (hne : u ≠ "") :
    (findProfileT env personName companyName).result
      = Except.ok ⟨personName, "", "", u⟩ ∧
    Event.reconcile ∉ (findProfileT env personName companyName).events := by
  have hshort : directShortcut
      (env.pages (personSearchUrl personName companyName)) = some u := by
    simp [directShortcut, hone]
  have hval : findProfileT env personName companyName
      = ⟨Except.ok ⟨personName, "", "", u⟩,
          [Event.launch true,
           Event.navigate (personSearchUrl personName companyName),
           Event.close]⟩ := by
    simp [findProfileT, withLinkedinM, hcs, hshort, truthyStr, hne,
      defaultWLOptions]
  rw [hval]
  exact ⟨rfl, by simp⟩

/-- Counterexample to claim C6 as stated: when the single
view-full-profile anchor has an empty href, the JS truthiness check rejects
it, the harvest-and-reconcile pipeline runs anyway (a reconcile event
occurs), and the returned profile is not synthesized from the anchor. -/
theorem findProfile_shortcut_empty_href_cex :
    (envEmptyHref.pages (personSearchUrl "Jane Doe" none)).viewProfileAnchors
      = [""] ∧
    (findProfileT envEmptyHref "Jane Doe" none).result
      = Except.ok janeProfile ∧
    Event.reconcile ∈ (findProfileT envEmptyHref "Jane Doe" none).events :=
  ⟨rfl, rfl, by decide⟩

/-- Witness for the amended claim C6 at a concrete one-anchor page. -/
theorem findProfile_direct_shortcut_witness :
    envShortcut.cookieStore = true ∧
    (envShortcut.pages (personSearchUrl "Jane Doe" none)).viewProfileAnchors
      = ["https://www.linkedin.com/in/jane"] ∧
    ("https://www.linkedin.com/in/jane" ≠ "") ∧
    ((findProfileT envShortcut "Jane Doe" none).result
      = Except.ok ⟨"Jane Doe", "", "", "https://www.linkedin.com/in/jane"⟩ ∧
     Event.reconcile ∉ (findProfileT envShortcut "Jane Doe" none).events) :=
  ⟨rfl, rfl, by decide, findProfile_direct_shortcut envShortcut "Jane Doe"
    none "https://www.linkedin.com/in/jane" rfl rfl (by decide)⟩

/-- Claim C7: when the direct-link shortcut does not apply, findProfile
returns the first reconciled record whose name contains the queried person
name case-insensitively, and fails with the no-profile-found error when no
record matches. -/
theorem findProfile_pipeline (env : Env) (personName : String)
    (companyName : Option String) (hcs : env.cookieStore = true)
    (hsc : truthyStr (directShortcut
        (env.pages (personSearchUrl personName companyName))) = none) :
    (∀ p, (reconciledPeople env personName companyName).find?
        (fun q => includesCI q.name personName) = some p →
      (findProfileT env personName companyName).result = Except.ok p) ∧
    ((reconciledPeople env personName companyName).find?
        (fun q => includesCI q.name personName) = none →
      (findProfileT env personName companyName).result
        = Except.error ("No profile found for " ++ personName)) := by
  have hred : (findProfileT env personName companyName).result =
      (match (reconciledPeople env personName companyName).find?
          (fun profile => includesCI profile.name personName) with
        | some p => Except.ok p
        | none => Except.error ("No profile found for " ++ personName)) := by
    simp only [findProfileT, extractProfilesT, withLinkedinM, hcs,
      reconciledPeople, defaultWLOptions, Option.join, hsc]
    simp [hsc]
    cases hfd : (env.reconcile ""
        (harvestCandidates
          (env.pages (personSearchUrl personName companyName)).profileAnchorHrefs)).find?
        (fun profile => includesCI profile.name personName) <;> rfl
  constructor
  · intro p hp
    rw [hred, hp]
  · intro hn
    rw [hred, hn]

/-- Witness for claim C7 at a concrete pipeline environment. -/
theorem findProfile_pipeline_witness :
    envPipeline.cookieStore = true ∧
    truthyStr (directShortcut
      (envPipeline.pages (personSearchUrl "Jane Doe" none))) = none ∧
    ((∀ p, (reconciledPeople envPipeline "Jane Doe" none).find?
        (fun q => includesCI q.name "Jane Doe") = some p →
      (findProfileT envPipeline "Jane Doe" none).result = Except.ok p) ∧
     ((reconciledPeople envPipeline "Jane Doe" none).find?
        (fun q => includesCI q.name "Jane Doe") = none →
      (findProfileT envPipeline "Jane Doe" none).result
        = Except.error ("No profile found for " ++ "Jane Doe"))) :=
  ⟨rfl, rfl, findProfile_pipeline envPipeline "Jane Doe" none rfl rfl⟩

/-- Claim C8: when the resolved profile page has no link carrying both the
first-degree facet marker and the connection-of marker,
findMutualConnections returns an empty mutuals list together with the
resolved person, without throwing. -/
theorem findMutualConnections_no_marker (env : Env) (personName : String)
    (companyName : Option String) (p : Profile)
    (hp : (findProfileT env personName companyName).result = Except.ok p)
    (hm : ∀ h ∈ (env.pages p.profileUrl).anchorHrefs,
        (containsStr h "facetNetwork=%22F%22" &&
          containsStr h "facetConnectionOf=") = false) :
    (findMutualConnectionsT env personName companyName).result
      = Except.ok ⟨[], p⟩ := by
  have hfind : facetMutualLink (env.pages p.profileUrl) = none := by
    apply List.find?_eq_none.mpr
    intro h hmem
    have hmem2 : h ∈ (env.pages p.profileUrl).anchorHrefs :=
      List.mem_of_mem_filter hmem
    simp [hm h hmem2]
  cases hcs : env.cookieStore <;>
    simp [findMutualConnectionsT, hp, hfind, withLinkedinM, hcs, truthyStr]

/-- Witness for claim C8 at a concrete marker-free profile page. -/
theorem findMutualConnections_no_marker_witness :
    (findProfileT envShortcut "Jane Doe" none).result = Except.ok janeShort ∧
    (∀ h ∈ (envShortcut.pages janeShort.profileUrl).anchorHrefs,
      (containsStr h "facetNetwork=%22F%22" &&
        containsStr h "facetConnectionOf=") = false) ∧
    (findMutualConnectionsT envShortcut "Jane Doe" none).result
      = Except.ok ⟨[], janeShort⟩ :=
  ⟨rfl, by decide, findMutualConnections_no_marker envShortcut "Jane Doe"
    none janeShort rfl (by decide)⟩

/-- Claim C9: when no message button is present on the page within the
bounded wait, draftMessage resolves to false rather than throwing. -/
theorem draftMessage_no_button (env : Env) (prevBrowser : Option Nat)
    (profileUrl message : String)
    (h0 : (env.pages profileUrl).messageButtonCount = 0) :
    (draftMessageT env prevBrowser profileUrl message).result
      = Except.ok false := by
  cases hcs : env.cookieStore <;>
    simp [draftMessageT, withLinkedinM, hcs, h0]

/-- Witness for claim C9 at a concrete buttonless page. -/
theorem draftMessage_no_button_witness :
    (envNoButton.pages "https://www.linkedin.com/in/jane").messageButtonCount
      = 0 ∧
    (draftMessageT envNoButton none "https://www.linkedin.com/in/jane"
        "hello").result = Except.ok false :=
  ⟨rfl, draftMessage_no_button envNoButton none
    "https://www.linkedin.com/in/jane" "hello" rfl⟩

/-- Claim C10: after every withLinkedin call completes, whether by normal
return, by an exception from the callback, or by the missing-cookie-store
path, the trace ends with a browser close and the persistent browser field
is cleared; consequently a draftMessage call entered with the field clear
(as it is after any completed call) launches a fresh headed browser first
and closes it before returning. -/
theorem withLinkedin_teardown :
    (∀ (T : Type) (cookieStore : Bool) (prevBrowser : Option Nat)
        (opts : WLOptions) (url : String) (fnResult : Except String T)
        (fnEvents : List Event),
      (withLinkedinM cookieStore prevBrowser opts url fnResult
          fnEvents).browserAfter = none ∧
      (withLinkedinM cookieStore prevBrowser opts url fnResult
          fnEvents).events.getLast? = some Event.close) ∧
    (∀ (env : Env) (profileUrl message : String),
      (draftMessageT env none profileUrl message).events.head?
        = some (Event.launch false) ∧
      (draftMessageT env none profileUrl message).events.getLast?
        = some Event.close) := by
  constructor
  · intro T cs prev opts url fr fe
    constructor
    · cases cs <;> cases fr <;> rfl
    · cases cs <;> cases fr <;> exact getLast?_append_singleton _ _
  · intro env pUrl msg
    constructor
    · cases hcs : env.cookieStore <;>
        simp [draftMessageT, withLinkedinM, hcs]
    · cases hcs : env.cookieStore <;>
        simp [draftMessageT, withLinkedinM, hcs, List.getLast?_append]

end OpenSDR
